import Mathlib

/-!
Shallow embedding of the simulation core of `wizzymore/ecs_testing`:
the uniform-grid spatial hash (`src/spatial_hash.rs`), the transform
hierarchy propagator, the collision resolver and the visibility culler
(`src/main.rs`, with the refactored variants in `src/systems.rs`).

Coordinates are embedded as rationals: every arithmetic operation the
source performs on `f32` (addition, subtraction, multiplication,
division by constants, `abs`, `floor`, comparisons) is modelled by the
corresponding exact operation on `ℚ`.  Machine-integer cell indices are
modelled as `ℤ` (the values reachable here are far from `i32` overflow).
`HashMap`s are modelled as association lists (the source never iterates
a map, only gets/inserts/removes by key), and `HashSet<Entity>` as
`Finset ℕ`.
-/

namespace Ecs

/-- Entities are opaque stable identifiers (bevy `Entity`); modelled as `ℕ`. -/
abbrev Entity := ℕ

/-- Grid cell coordinates, `(i32, i32)` in the source. -/
abbrev Cell := ℤ × ℤ

/-- rustyray `Vector2`. -/
structure Vec2 where
  x : ℚ
  y : ℚ
deriving DecidableEq, Repr

instance : Add Vec2 := ⟨fun a b => ⟨a.x + b.x, a.y + b.y⟩⟩

/-- Componentwise product, rustyray `Vector2 * Vector2`. -/
instance : Mul Vec2 := ⟨fun a b => ⟨a.x * b.x, a.y * b.y⟩⟩

theorem Vec2.add_def (a b : Vec2) : a + b = ⟨a.x + b.x, a.y + b.y⟩ := rfl

theorem Vec2.mul_def (a b : Vec2) : a * b = ⟨a.x * b.x, a.y * b.y⟩ := rfl

/-- rustyray `Rectangle`: position of the top-left corner plus extent. -/
structure Rectangle where
  x : ℚ
  y : ℚ
  width : ℚ
  height : ℚ
deriving DecidableEq, Repr

/-- Axis-aligned overlap test.  Models the external
`rustyray::Rectangle::collides_rect` (raylib `CheckCollisionRecs`):
strict inequalities, so rectangles that merely touch do not collide —
this matches the spec sentence that a resolved mover ends "exactly
flush against the wall's edge, never overlapping". -/
def Rectangle.collides (a b : Rectangle) : Bool :=
  decide (a.x < b.x + b.width) && decide (a.x + a.width > b.x) &&
  decide (a.y < b.y + b.height) && decide (a.y + a.height > b.y)

/-- Association-list lookup for the `cells : HashMap<(i32,i32), Vec<Entity>>` model. -/
def getCell : List (Cell × List Entity) → Cell → Option (List Entity)
  | [], _ => none
  | (k, v) :: m, c => if k = c then some v else getCell m c

/-- Key removal, models `HashMap::remove`. -/
def eraseCell (m : List (Cell × List Entity)) (c : Cell) : List (Cell × List Entity) :=
  m.filter (fun p => decide (p.1 ≠ c))

/-- Key insertion/overwrite, models `HashMap::insert` / `entry().or_default()`
writes.  The association list is read first-match-wins by `getCell`, so
prepending the new binding models overwriting. -/
def setCell (m : List (Cell × List Entity)) (c : Cell) (v : List Entity) :
    List (Cell × List Entity) :=
  (c, v) :: m

/-- Association-list lookup for the `entities : HashMap<Entity, Vec<(i32,i32)>>` model. -/
def getEnt : List (Entity × List Cell) → Entity → Option (List Cell)
  | [], _ => none
  | (k, v) :: m, e => if k = e then some v else getEnt m e

/-- Key insertion/overwrite for the entity-record map. -/
def setEnt (m : List (Entity × List Cell)) (e : Entity) (v : List Cell) :
    List (Entity × List Cell) :=
  (e, v) :: m.filter (fun p => decide (p.1 ≠ e))

/-- The inclusive integer range `a..=b` of the source's cell loops
(empty when `b < a`, exactly like Rust's `a..=b`). -/
def intRange (a b : ℤ) : List ℤ :=
  (List.range (b + 1 - a).toNat).map (fun (k : ℕ) => a + (k : ℤ))

/-- The loop body of `SpatialHash::insert`:
`self.cells.entry(*cell).or_default().push(entity)`. -/
def insertStep (e : Entity) (m : List (Cell × List Entity)) (c : Cell) :
    List (Cell × List Entity) :=
  setCell m c ((getCell m c).getD [] ++ [e])

/-- The loop body of the old-cell removal in `SpatialHash::update`:
retain every element other than the entity, dropping the bucket
entirely if it becomes empty. -/
def removeStep (e : Entity) (m : List (Cell × List Entity)) (c : Cell) :
    List (Cell × List Entity) :=
  match getCell m c with
  | some bucket =>
    if bucket.filter (fun x => decide (x ≠ e)) = [] then eraseCell m c
    else setCell m c (bucket.filter (fun x => decide (x ≠ e)))
  | none => m

/-- `SpatialHash` (src/spatial_hash.rs). -/
structure SpatialHash where
  cell_size : ℚ
  cells : List (Cell × List Entity)
  entities : List (Entity × List Cell)
deriving Repr

/-- `SpatialHash::new`. -/
def SpatialHash.new (cell_size : ℚ) : SpatialHash :=
  ⟨cell_size, [], []⟩

/-- `SpatialHash::cell_coords`: per-axis `floor(coordinate / cell_size)`. -/
def SpatialHash.cell_coords (h : SpatialHash) (x y : ℚ) : Cell :=
  (⌊x / h.cell_size⌋, ⌊y / h.cell_size⌋)

/-- `SpatialHash::cell_coords_rect`, release semantics (the loop body after
the `debug_assert!`): all cells of the inclusive range from
`cell_coords(x, y)` to `cell_coords(x + width, y + height)`,
outer loop over `cy`, inner over `cx`. -/
def SpatialHash.cell_coords_rect (h : SpatialHash) (r : Rectangle) : List Cell :=
  let lo := h.cell_coords r.x r.y
  let hi := h.cell_coords (r.x + r.width) (r.y + r.height)
  (intRange lo.2 hi.2).flatMap (fun cy => (intRange lo.1 hi.1).map (fun cx => (cx, cy)))

/-- `SpatialHash::cell_coords_rect` under debug-build semantics: the body
starts with `debug_assert!(rect.width >= 0.0 && rect.height >= 0.0)`,
so an inverted rectangle fails (modelled by `none`). -/
def SpatialHash.cell_coords_rectChecked (h : SpatialHash) (r : Rectangle) :
    Option (List Cell) :=
  if 0 ≤ r.width ∧ 0 ≤ r.height then some (h.cell_coords_rect r) else none

/-- `SpatialHash::insert`: push the entity onto every covered cell's bucket
(in cell order, through the progressively updated map) and record the
cell set against the entity. -/
def SpatialHash.insert (h : SpatialHash) (e : Entity) (r : Rectangle) : SpatialHash :=
  { h with
    cells := (h.cell_coords_rect r).foldl (insertStep e) h.cells
    entities := setEnt h.entities e (h.cell_coords_rect r) }

/-- `SpatialHash::update`: recompute the cell set; if it equals the recorded
one, return unchanged; otherwise remove the entity from every old cell
(dropping now-empty cells) and fall through to `insert`.  An entity with
no record falls through to `insert` directly. -/
def SpatialHash.update (h : SpatialHash) (e : Entity) (r : Rectangle) : SpatialHash :=
  match getEnt h.entities e with
  | some old_cells =>
    if old_cells = h.cell_coords_rect r then h
    else SpatialHash.insert { h with cells := old_cells.foldl (removeStep e) h.cells } e r
  | none => SpatialHash.insert h e r

/-- `SpatialHash::update` under debug-build semantics: it calls
`cell_coords_rect`, whose `debug_assert!` fails on inverted rectangles. -/
def SpatialHash.updateChecked (h : SpatialHash) (e : Entity) (r : Rectangle) :
    Option SpatialHash :=
  match h.cell_coords_rectChecked r with
  | none => none
  | some _ => some (h.update e r)

/-- `SpatialHash::query`: the deduplicated union of the buckets of every
cell in the covered range.  The source recomputes the inclusive cell
range inline (the same computation as `cell_coords_rect`) and collects
into a `HashSet`. -/
def SpatialHash.query (h : SpatialHash) (r : Rectangle) : Finset Entity :=
  ((h.cell_coords_rect r).foldl (fun acc c => acc ++ (getCell h.cells c).getD []) []).toFinset

/-- `SpatialHash::query` under debug-build semantics: its body contains no
`debug_assert!` — it recomputes the cell range inline rather than calling
`cell_coords_rect` — so it never fails, even on an inverted rectangle. -/
def SpatialHash.queryChecked (h : SpatialHash) (r : Rectangle) :
    Option (Finset Entity) :=
  some (h.query r)

theorem getCell_setCell_self (m : List (Cell × List Entity)) (c : Cell) (v : List Entity) :
    getCell (setCell m c v) c = some v := by
  simp [setCell, getCell]

theorem getCell_setCell_ne (m : List (Cell × List Entity)) {c c' : Cell}
    (hne : c' ≠ c) (v : List Entity) :
    getCell (setCell m c v) c' = getCell m c' := by
  simp [setCell, getCell, Ne.symm hne]

theorem getCell_eraseCell_ne (m : List (Cell × List Entity)) {c c' : Cell} (hne : c' ≠ c) :
    getCell (eraseCell m c) c' = getCell m c' := by
  induction m with
  | nil => rfl
  | cons p m ih =>
    obtain ⟨k, v⟩ := p
    by_cases hkc : k = c
    · subst hkc
      have h1 : eraseCell ((k, v) :: m) k = eraseCell m k := by
        simp [eraseCell, List.filter_cons]
      have hk2 : k ≠ c' := fun h => hne h.symm
      rw [h1, ih]
      simp [getCell, hk2]
    · have h1 : eraseCell ((k, v) :: m) c = (k, v) :: eraseCell m c := by
        simp [eraseCell, List.filter_cons, hkc]
      rw [h1]
      by_cases hk2 : k = c'
      · simp [getCell, hk2]
      · simp [getCell, hk2, ih]

theorem getCell_eraseCell_self (m : List (Cell × List Entity)) (c : Cell) :
    getCell (eraseCell m c) c = none := by
  induction m with
  | nil => rfl
  | cons p m ih =>
    obtain ⟨k, v⟩ := p
    by_cases hkc : k = c
    · subst hkc
      have h1 : eraseCell ((k, v) :: m) k = eraseCell m k := by
        simp [eraseCell, List.filter_cons]
      rw [h1, ih]
    · have h1 : eraseCell ((k, v) :: m) c = (k, v) :: eraseCell m c := by
        simp [eraseCell, List.filter_cons, hkc]
      rw [h1]
      simp [getCell, hkc, ih]

theorem getEnt_setEnt_self (m : List (Entity × List Cell)) (e : Entity) (v : List Cell) :
    getEnt (setEnt m e v) e = some v := by
  simp [setEnt, getEnt]

theorem mem_intRange {a b c : ℤ} : c ∈ intRange a b ↔ a ≤ c ∧ c ≤ b := by
  unfold intRange
  simp only [List.mem_map, List.mem_range]
  constructor
  · rintro ⟨k, hk, rfl⟩
    omega
  · rintro ⟨h1, h2⟩
    exact ⟨(c - a).toNat, by omega, by omega⟩

theorem insert_fold_untouched (e : Entity) (cs : List Cell) (m : List (Cell × List Entity))
    {c : Cell} (hc : c ∉ cs) :
    getCell (cs.foldl (insertStep e) m) c = getCell m c := by
  induction cs generalizing m with
  | nil => rfl
  | cons c0 cs ih =>
    have hne : c ≠ c0 := fun h => hc (h ▸ List.mem_cons_self c0 cs)
    simp only [List.foldl_cons]
    rw [ih _ (fun h => hc (List.mem_cons_of_mem c0 h))]
    exact getCell_setCell_ne m hne _

theorem insert_fold_mem (e : Entity) (cs : List Cell) (m : List (Cell × List Entity))
    {c : Cell} (hc : c ∈ cs) :
    e ∈ (getCell (cs.foldl (insertStep e) m) c).getD [] := by
  induction cs generalizing m with
  | nil => exact absurd hc (List.not_mem_nil c)
  | cons c0 cs ih =>
    simp only [List.foldl_cons]
    by_cases hmem : c ∈ cs
    · exact ih _ hmem
    · have hc0 : c = c0 := by
        rcases List.mem_cons.mp hc with h | h
        · exact h
        · exact absurd h hmem
      subst hc0
      rw [insert_fold_untouched e cs _ hmem]
      simp [insertStep, getCell_setCell_self]

theorem removeStep_no_self (e : Entity) (m : List (Cell × List Entity)) (c : Cell) :
    e ∉ (getCell (removeStep e m c) c).getD [] := by
  unfold removeStep
  split
  next bucket hg =>
    by_cases hb : bucket.filter (fun x => decide (x ≠ e)) = []
    · rw [if_pos hb]
      simp [getCell_eraseCell_self]
    · rw [if_neg hb, getCell_setCell_self]
      simp only [Option.getD_some]
      intro hmem
      have h2 := List.of_mem_filter hmem
      simp at h2
  next hg => simp [hg]

theorem removeStep_untouched (e : Entity) (m : List (Cell × List Entity)) {c c' : Cell}
    (hne : c ≠ c') :
    getCell (removeStep e m c') c = getCell m c := by
  unfold removeStep
  split
  next bucket hg =>
    by_cases hb : bucket.filter (fun x => decide (x ≠ e)) = []
    · rw [if_pos hb]
      exact getCell_eraseCell_ne m hne
    · rw [if_neg hb]
      exact getCell_setCell_ne m hne _
  next hg => rfl

theorem removeStep_preserves_absent (e : Entity) (m : List (Cell × List Entity))
    {c : Cell} (c' : Cell) (habs : e ∉ (getCell m c).getD []) :
    e ∉ (getCell (removeStep e m c') c).getD [] := by
  by_cases hcc : c = c'
  · subst hcc
    exact removeStep_no_self e m c
  · rw [removeStep_untouched e m hcc]
    exact habs

theorem remove_fold_absent (e : Entity) (cs : List Cell) (m : List (Cell × List Entity))
    {c : Cell} (habs : e ∉ (getCell m c).getD []) :
    e ∉ (getCell (cs.foldl (removeStep e) m) c).getD [] := by
  induction cs generalizing m with
  | nil => exact habs
  | cons c0 cs ih => exact ih _ (removeStep_preserves_absent e m c0 habs)

theorem remove_fold_removes (e : Entity) (cs : List Cell) (m : List (Cell × List Entity))
    {c : Cell} (hc : c ∈ cs) :
    e ∉ (getCell (cs.foldl (removeStep e) m) c).getD [] := by
  induction cs generalizing m with
  | nil => exact absurd hc (List.not_mem_nil c)
  | cons c0 cs ih =>
    simp only [List.foldl_cons]
    by_cases hmem : c ∈ cs
    · exact ih _ hmem
    · have hc0 : c = c0 := by
        rcases List.mem_cons.mp hc with h | h
        · exact h
        · exact absurd h hmem
      subst hc0
      exact remove_fold_absent e cs _ (removeStep_no_self e m c)

theorem foldl_append_eq (g : Cell → List Entity) (cs : List Cell) (acc : List Entity) :
    cs.foldl (fun a c => a ++ g c) acc = acc ++ cs.flatMap g := by
  induction cs generalizing acc with
  | nil => simp
  | cons c0 cs ih => simp [ih]

theorem mem_query {h : SpatialHash} {r : Rectangle} {x : Entity} :
    x ∈ h.query r ↔ ∃ c ∈ h.cell_coords_rect r, x ∈ (getCell h.cells c).getD [] := by
  unfold SpatialHash.query
  rw [List.mem_toFinset, foldl_append_eq]
  simp [List.mem_flatMap]

theorem cell_coords_rect_insert (h : SpatialHash) (e : Entity) (r r2 : Rectangle) :
    (h.insert e r).cell_coords_rect r2 = h.cell_coords_rect r2 := rfl

theorem cell_coords_rect_set_cells (h : SpatialHash) (m : List (Cell × List Entity))
    (r : Rectangle) : SpatialHash.cell_coords_rect { h with cells := m } r =
      h.cell_coords_rect r := rfl

/-- With a positive cell size and non-negative extent, the rectangle's own
top-left cell is always covered, so the cell set is nonempty (spec §4.1:
degenerate rectangles still resolve to at least one cell). -/
theorem cell_coords_rect_self (h : SpatialHash) (r : Rectangle) (hcs : 0 < h.cell_size)
    (hw : 0 ≤ r.width) (hh : 0 ≤ r.height) :
    h.cell_coords r.x r.y ∈ h.cell_coords_rect r := by
  unfold SpatialHash.cell_coords_rect SpatialHash.cell_coords
  simp only [List.mem_flatMap, List.mem_map]
  refine ⟨⌊r.y / h.cell_size⌋, ?_, ⌊r.x / h.cell_size⌋, ?_, rfl⟩
  · rw [mem_intRange]
    exact ⟨le_refl _, Int.floor_le_floor ((div_le_div_iff_of_pos_right hcs).mpr (by linarith))⟩
  · rw [mem_intRange]
    exact ⟨le_refl _, Int.floor_le_floor ((div_le_div_iff_of_pos_right hcs).mpr (by linarith))⟩

/-- C4: after `insert(e, R)` a query over `R` finds `e`; after a subsequent
`update(e, R2)` with `R2` covering a cell set disjoint from `R`'s, a query
over `R` no longer finds `e` while a query over `R2` does.  Holds for any
prior index state; inverted rectangles are excluded per the §7 precondition
and the cell size is positive as fixed at construction. -/
theorem insert_update_query (h : SpatialHash) (e : Entity) (R R2 : Rectangle)
    (hcs : 0 < h.cell_size)
    (hw : 0 ≤ R.width) (hh : 0 ≤ R.height) (hw2 : 0 ≤ R2.width) (hh2 : 0 ≤ R2.height)
    (hdisj : ∀ c ∈ h.cell_coords_rect R, c ∉ h.cell_coords_rect R2) :
    e ∈ (h.insert e R).query R ∧
      e ∉ ((h.insert e R).update e R2).query R ∧
      e ∈ ((h.insert e R).update e R2).query R2 := by
  have hc0 : h.cell_coords R.x R.y ∈ h.cell_coords_rect R :=
    cell_coords_rect_self h R hcs hw hh
  have hc2 : h.cell_coords R2.x R2.y ∈ h.cell_coords_rect R2 :=
    cell_coords_rect_self h R2 hcs hw2 hh2
  have hne : ¬(h.cell_coords_rect R = h.cell_coords_rect R2) := fun heq =>
    hdisj _ hc0 (heq ▸ hc0)
  have hcells1 : (h.insert e R).cells = (h.cell_coords_rect R).foldl (insertStep e) h.cells :=
    rfl
  have hupd : (h.insert e R).update e R2 =
      SpatialHash.insert
        { h.insert e R with
          cells := (h.cell_coords_rect R).foldl (removeStep e) (h.insert e R).cells }
        e R2 := by
    unfold SpatialHash.update
    have hg : getEnt (h.insert e R).entities e = some (h.cell_coords_rect R) :=
      getEnt_setEnt_self _ _ _
    simp only [hg, cell_coords_rect_insert, if_neg hne]
  refine ⟨?_, ?_, ?_⟩
  · rw [mem_query]
    exact ⟨h.cell_coords R.x R.y, hc0, hcells1 ▸ insert_fold_mem e _ h.cells hc0⟩
  · rw [hupd, mem_query]
    rintro ⟨c, hcmem, hcbuck⟩
    rw [cell_coords_rect_insert, cell_coords_rect_set_cells] at hcmem
    have hnotin2 : c ∉ h.cell_coords_rect R2 := hdisj c hcmem
    rw [show (SpatialHash.insert
        { h.insert e R with
          cells := (h.cell_coords_rect R).foldl (removeStep e) (h.insert e R).cells }
        e R2).cells =
      (h.cell_coords_rect R2).foldl (insertStep e)
        ((h.cell_coords_rect R).foldl (removeStep e) (h.insert e R).cells) from rfl] at hcbuck
    rw [insert_fold_untouched e _ _ hnotin2] at hcbuck
    exact remove_fold_removes e _ _ hcmem hcbuck
  · rw [hupd, mem_query]
    refine ⟨h.cell_coords R2.x R2.y, ?_, ?_⟩
    · rw [cell_coords_rect_insert, cell_coords_rect_set_cells]
      exact hc2
    · rw [show (SpatialHash.insert
          { h.insert e R with
            cells := (h.cell_coords_rect R).foldl (removeStep e) (h.insert e R).cells }
          e R2).cells =
        (h.cell_coords_rect R2).foldl (insertStep e)
          ((h.cell_coords_rect R).foldl (removeStep e) (h.insert e R).cells) from rfl]
      exact insert_fold_mem e _ _ hc2

/-- Witness for C4 at a concrete input: cell size 10, `R = (0,0,5,5)`
(cell `(0,0)`), `R2 = (20,20,5,5)` (cell `(2,2)`). -/
theorem insert_update_query_witness :
    (0 : ℚ) < 10 ∧
      7 ∈ ((SpatialHash.new 10).insert 7 ⟨0, 0, 5, 5⟩).query ⟨0, 0, 5, 5⟩ ∧
      7 ∉ (((SpatialHash.new 10).insert 7 ⟨0, 0, 5, 5⟩).update 7 ⟨20, 20, 5, 5⟩).query
        ⟨0, 0, 5, 5⟩ ∧
      7 ∈ (((SpatialHash.new 10).insert 7 ⟨0, 0, 5, 5⟩).update 7 ⟨20, 20, 5, 5⟩).query
        ⟨20, 20, 5, 5⟩ := by
  have h1 : (SpatialHash.new 10).cell_coords_rect ⟨0, 0, 5, 5⟩ = [((0 : ℤ), (0 : ℤ))] := by
    simp [SpatialHash.cell_coords_rect, SpatialHash.cell_coords, SpatialHash.new, intRange]
    norm_num
    decide
  have h2 : (SpatialHash.new 10).cell_coords_rect ⟨20, 20, 5, 5⟩ = [((2 : ℤ), (2 : ℤ))] := by
    simp [SpatialHash.cell_coords_rect, SpatialHash.cell_coords, SpatialHash.new, intRange]
    norm_num
    decide
  refine ⟨by norm_num,
    insert_update_query (SpatialHash.new 10) 7 ⟨0, 0, 5, 5⟩ ⟨20, 20, 5, 5⟩
      (by norm_num [SpatialHash.new]) (by norm_num) (by norm_num) (by norm_num) (by norm_num) ?_⟩
  intro c hc
  rw [h1] at hc
  rw [h2]
  rcases List.mem_singleton.mp hc with rfl
  decide

/-- C10: `SpatialHash::update` on an entity with no recorded cell set takes the
fall-through branch and is exactly `SpatialHash::insert` on the same state. -/
theorem update_unknown_entity_eq_insert (h : SpatialHash) (e : Entity) (r : Rectangle)
    (hu : getEnt h.entities e = none) : h.update e r = h.insert e r := by
  unfold SpatialHash.update
  rw [hu]

/-- Witness for C10 at a concrete input: a fresh hash has no record for
entity 3, and `update` on it equals `insert`. -/
theorem update_unknown_entity_eq_insert_witness :
    getEnt (SpatialHash.new 10).entities 3 = none ∧
      (SpatialHash.new 10).update 3 ⟨0, 0, 5, 5⟩ = (SpatialHash.new 10).insert 3 ⟨0, 0, 5, 5⟩ :=
  ⟨rfl, update_unknown_entity_eq_insert (SpatialHash.new 10) 3 ⟨0, 0, 5, 5⟩ rfl⟩

/-- C7 (amended): `update` invoked with an inverted rectangle (negative width
or height) fails the debug-build assertion inside `cell_coords_rect`; `query`
performs no assertion at all — it recomputes the cell range inline and
returns its (normal) result even for an inverted rectangle. -/
theorem updateChecked_inverted_fails_queryChecked_succeeds
    (h : SpatialHash) (e : Entity) (r : Rectangle) :
    ((r.width < 0 ∨ r.height < 0) → h.updateChecked e r = none) ∧
      h.queryChecked r = some (h.query r) := by
  refine ⟨fun hlt => ?_, rfl⟩
  unfold SpatialHash.updateChecked SpatialHash.cell_coords_rectChecked
  rw [if_neg]
  rintro ⟨h1, h2⟩
  rcases hlt with hw | hh
  · exact absurd h1 (not_le.mpr hw)
  · exact absurd h2 (not_le.mpr hh)

/-- Witness for the amended C7 at a concrete inverted rectangle. -/
theorem updateChecked_inverted_fails_witness :
    (SpatialHash.new 10).updateChecked 1 ⟨0, 0, -1, 3⟩ = none ∧
      (SpatialHash.new 10).queryChecked ⟨0, 0, -1, 3⟩ =
        some ((SpatialHash.new 10).query ⟨0, 0, -1, 3⟩) :=
  ⟨(updateChecked_inverted_fails_queryChecked_succeeds (SpatialHash.new 10) 1
      ⟨0, 0, -1, 3⟩).1 (Or.inl (by norm_num)),
   (updateChecked_inverted_fails_queryChecked_succeeds (SpatialHash.new 10) 1
      ⟨0, 0, -1, 3⟩).2⟩

/-- Counterexample to C7 as stated: a query over an inverted rectangle
(width −1) proceeds and returns a normal (empty) result under debug-build
semantics instead of failing an assertion. -/
theorem query_inverted_does_not_assert :
    ((SpatialHash.new 10).insert 1 ⟨0, 0, 5, 5⟩).queryChecked ⟨0, 0, -1, -1⟩ = some ∅ := by
  simp [SpatialHash.queryChecked, SpatialHash.query, SpatialHash.insert,
    SpatialHash.cell_coords_rect, SpatialHash.cell_coords, SpatialHash.new, intRange,
    getCell, setCell, eraseCell, setEnt]
  norm_num

/-- Local `Transform` component (src/components.rs). -/
structure Transform where
  position : Vec2
  rotation : ℚ
  scale : Vec2
deriving DecidableEq, Repr

/-- `GlobalTransform` component (src/components.rs). -/
structure GlobalTransform where
  position : Vec2
  rotation : ℚ
  scale : Vec2
deriving DecidableEq, Repr

/-- Rust `f32::rem_euclid` in exact arithmetic: for a positive modulus `b`
it equals `a - b * ⌊a / b⌋`, the representative of `a` in `[0, b)`. -/
def remEuclid (a b : ℚ) : ℚ := a - b * ⌊a / b⌋

/-- `GlobalTransform::from_local`: position adds, rotation adds and is
wrapped with `rem_euclid(360.0)`, scale multiplies componentwise. -/
def GlobalTransform.from_local (parent : GlobalTransform) (l : Transform) : GlobalTransform :=
  ⟨parent.position + l.position, remEuclid (parent.rotation + l.rotation) 360,
    parent.scale * l.scale⟩

/-- `GlobalTransform::from_root`: the local transform with its rotation
wrapped by `rem_euclid(360.0)`. -/
def GlobalTransform.from_root (l : Transform) : GlobalTransform :=
  ⟨l.position, remEuclid l.rotation 360, l.scale⟩

theorem remEuclid_360 (a : ℚ) :
    0 ≤ remEuclid a 360 ∧ remEuclid a 360 < 360 ∧
      a - remEuclid a 360 = 360 * ⌊a / 360⌋ := by
  have key : (360 : ℚ) * (a / 360) = a := by ring
  have h1 : ((⌊a / 360⌋ : ℤ) : ℚ) ≤ a / 360 := Int.floor_le _
  have h2 : a / 360 < (⌊a / 360⌋ : ℤ) + 1 := Int.lt_floor_add_one _
  refine ⟨?_, ?_, by unfold remEuclid; ring⟩
  · unfold remEuclid
    nlinarith
  · unfold remEuclid
    nlinarith

/-- C6: the compose rule of the world-transform invariant — position is the
sum, scale the componentwise product, and rotation the sum reduced into
`[0, 360)` modulo 360; and the root rule is the local transform with
rotation normalized into `[0, 360)`. -/
theorem from_local_from_root_spec (p : GlobalTransform) (l : Transform) :
    (GlobalTransform.from_local p l).position = p.position + l.position ∧
      (GlobalTransform.from_local p l).scale = p.scale * l.scale ∧
      (0 ≤ (GlobalTransform.from_local p l).rotation ∧
        (GlobalTransform.from_local p l).rotation < 360) ∧
      (∃ k : ℤ, p.rotation + l.rotation - (GlobalTransform.from_local p l).rotation = 360 * k) ∧
      (GlobalTransform.from_root l).position = l.position ∧
      (GlobalTransform.from_root l).scale = l.scale ∧
      (0 ≤ (GlobalTransform.from_root l).rotation ∧
        (GlobalTransform.from_root l).rotation < 360) ∧
      (∃ k : ℤ, l.rotation - (GlobalTransform.from_root l).rotation = 360 * k) := by
  obtain ⟨ha1, ha2, ha3⟩ := remEuclid_360 (p.rotation + l.rotation)
  obtain ⟨hb1, hb2, hb3⟩ := remEuclid_360 l.rotation
  exact ⟨rfl, rfl, ⟨ha1, ha2⟩, ⟨⌊(p.rotation + l.rotation) / 360⌋, ha3⟩,
    rfl, rfl, ⟨hb1, hb2⟩, ⟨⌊l.rotation / 360⌋, hb3⟩⟩

/-- Per-entity state for the transform propagator: local `Transform`,
`GlobalTransform`, the `Children` list (entity ids = indices into the
world list), presence of a `ChildOf` parent relation, and the
`Changed<Transform>` flag used by the main.rs variant. -/
structure PEnt where
  transform : Transform
  global : GlobalTransform
  children : List ℕ
  hasParent : Bool
  changed : Bool
deriving DecidableEq, Repr

abbrev PWorld := List PEnt

theorem PEnt.ext_fields {a b : PEnt} (h1 : a.transform = b.transform)
    (h2 : a.global = b.global) (h3 : a.children = b.children)
    (h4 : a.hasParent = b.hasParent) (h5 : a.changed = b.changed) : a = b := by
  cases a
  cases b
  simp_all

/-- First loop of main.rs's `update_global_transforms_system`: the query is
filtered by `Changed<Transform>` only — there is no parent filter — so
every changed entity gets the root rule applied.  The per-entity updates
are independent, hence rendered as a map. -/
def phase1MainWorld (w : PWorld) : PWorld :=
  w.map (fun e =>
    if e.changed then { e with global := GlobalTransform.from_root e.transform } else e)

/-- The work stack built by main.rs's first loop: for each changed entity,
its children paired with the freshly written global (always `Some`).
Entries are pushed in iteration order and popped LIFO, so with the top of
the stack at the head the push list is reversed. -/
def phase1MainStack (w : PWorld) : List (Option GlobalTransform × ℕ) :=
  ((w.filter (fun e => e.changed)).flatMap
    (fun e => e.children.map (fun c => (some (GlobalTransform.from_root e.transform), c)))).reverse

/-- The pop loop of main.rs's propagator: pop an entry, skip entities the
world no longer resolves, write the compose rule (the `None`-parent arm
applying the root rule exists in the source but is never pushed), and push
the children with the freshly written global. -/
def stackLoopMain : ℕ → PWorld → List (Option GlobalTransform × ℕ) → PWorld
  | 0, w, _ => w
  | _ + 1, w, [] => w
  | fuel + 1, w, (pgt, i) :: st =>
    match w.get? i with
    | none => stackLoopMain fuel w st
    | some e =>
      let g := match pgt with
        | some p => GlobalTransform.from_local p e.transform
        | none => GlobalTransform.from_root e.transform
      stackLoopMain fuel (w.set i { e with global := g })
        ((e.children.map (fun c => ((some g : Option GlobalTransform), c))).reverse ++ st)

/-- main.rs `update_global_transforms_system` (the variant wired into the
schedule), with explicit fuel for the work-stack loop; any fuel at least
the number of pushed entries yields the loop's fixpoint. -/
def update_global_transforms_system_main (fuel : ℕ) (w : PWorld) : PWorld :=
  stackLoopMain fuel (phase1MainWorld w) (phase1MainStack w)

/-- First loop of systems.rs's `update_global_transforms_system`: the
`parents` query carries `Without<ChildOf>`, so exactly the parentless
entities get the root rule. -/
def phase1SystemsWorld (w : PWorld) : PWorld :=
  w.map (fun e =>
    if e.hasParent then e else { e with global := GlobalTransform.from_root e.transform })

/-- The work stack built by systems.rs's first loop: children of the
parentless entities, paired with the freshly written root global. -/
def phase1SystemsStack (w : PWorld) : List (GlobalTransform × ℕ) :=
  ((w.filter (fun e => !e.hasParent)).flatMap
    (fun e => e.children.map (fun c => (GlobalTransform.from_root e.transform, c)))).reverse

/-- The pop loop of systems.rs's propagator: the `children` query carries
`With<ChildOf>`, so popped entities without a parent are skipped; popped
entities are always assigned the compose rule with the popped parent
global, and their children are pushed with the fresh value. -/
def stackLoopSystems : ℕ → PWorld → List (GlobalTransform × ℕ) → PWorld
  | 0, w, _ => w
  | _ + 1, w, [] => w
  | fuel + 1, w, (pgt, i) :: st =>
    match w.get? i with
    | none => stackLoopSystems fuel w st
    | some e =>
      if e.hasParent then
        stackLoopSystems fuel
          (w.set i { e with global := GlobalTransform.from_local pgt e.transform })
          ((e.children.map
            (fun c => (GlobalTransform.from_local pgt e.transform, c))).reverse ++ st)
      else
        stackLoopSystems fuel w st

/-- systems.rs `update_global_transforms_system` (the unscheduled refactor). -/
def update_global_transforms_system_systems (fuel : ℕ) (w : PWorld) : PWorld :=
  stackLoopSystems fuel (phase1SystemsWorld w) (phase1SystemsStack w)

/-- A parentless entity at index 0 (position (100,100)) whose transform is
unchanged this tick, with one child, entity 1. -/
def exC3Parent : PEnt :=
  { transform := ⟨⟨100, 100⟩, 0, ⟨1, 1⟩⟩, global := ⟨⟨100, 100⟩, 0, ⟨1, 1⟩⟩,
    children := [1], hasParent := false, changed := false }

/-- A parented entity at index 1 (local position (5,5)) whose transform
changed this tick. -/
def exC3Child : PEnt :=
  { transform := ⟨⟨5, 5⟩, 0, ⟨1, 1⟩⟩, global := ⟨⟨0, 0⟩, 0, ⟨1, 1⟩⟩,
    children := [], hasParent := true, changed := true }

/-- Counterexample to C3 as stated: in the scheduled (main.rs) propagator the
first loop is filtered only by `Changed<Transform>`, so a parented entity
whose transform changed while its parent's did not ends the pass with the
root rule applied to it — not the compose rule with its parent's world
transform, which yields a different value here ((5,5) against (105,105)). -/
theorem main_propagator_root_rule_on_parented_child :
    ((update_global_transforms_system_main 10 [exC3Parent, exC3Child]).get? 1).map PEnt.global =
        some (GlobalTransform.from_root exC3Child.transform) ∧
      GlobalTransform.from_root exC3Child.transform ≠
        GlobalTransform.from_local (GlobalTransform.from_root exC3Parent.transform)
          exC3Child.transform := by
  refine ⟨rfl, fun h => ?_⟩
  have h2 := congrArg GlobalTransform.position h
  simp [GlobalTransform.from_root, GlobalTransform.from_local, Vec2.add_def,
    exC3Child, exC3Parent] at h2

theorem phase1SystemsWorld_get? (w : PWorld) (i : ℕ) (e : PEnt) (hw : w.get? i = some e) :
    (phase1SystemsWorld w).get? i =
      some (if e.hasParent then e
        else { e with global := GlobalTransform.from_root e.transform }) := by
  rw [List.get?_eq_getElem?] at hw ⊢
  rw [phase1SystemsWorld, List.getElem?_map, hw]
  rfl

/-- Field-preservation invariant of the systems.rs stack loop: an entity's
transform, children, parenthood and changed flag are never written; its
global is either untouched or assigned a compose-rule value
`from_local p` of its own (unchanged) local transform.  Entities without
a parent are never modified (the `children` query filter). -/
theorem stackLoopSystems_spec (fuel : ℕ) :
    ∀ (st : List (GlobalTransform × ℕ)) (w : PWorld) (i : ℕ) (e : PEnt),
      w.get? i = some e →
      ∃ e', (stackLoopSystems fuel w st).get? i = some e' ∧
        e'.transform = e.transform ∧ e'.children = e.children ∧
        e'.hasParent = e.hasParent ∧ e'.changed = e.changed ∧
        (e'.global = e.global ∨
          (e.hasParent = true ∧
            ∃ p, e'.global = GlobalTransform.from_local p e.transform)) := by
  induction fuel with
  | zero =>
    intro st w i e hw
    exact ⟨e, hw, rfl, rfl, rfl, rfl, Or.inl rfl⟩
  | succ fuel ih =>
    intro st w i e hw
    cases st with
    | nil => exact ⟨e, hw, rfl, rfl, rfl, rfl, Or.inl rfl⟩
    | cons top st =>
      obtain ⟨pgt, j⟩ := top
      rw [stackLoopSystems]
      split
      next hj => exact ih st w i e hw
      next ej hj =>
        by_cases hp : ej.hasParent
        · rw [if_pos hp]
          by_cases hij : i = j
          · subst hij
            rw [hw] at hj
            have hee : e = ej := Option.some.inj hj
            subst hee
            obtain ⟨hlen, -⟩ := List.get?_eq_some.mp hw
            have hw' : (w.set i { e with
                global := GlobalTransform.from_local pgt e.transform }).get? i =
                some { e with global := GlobalTransform.from_local pgt e.transform } :=
              List.get?_set_eq_of_lt _ hlen
            obtain ⟨e', h1, h2, h3, h4, h5, h6⟩ := ih _ _ i _ hw'
            refine ⟨e', h1, h2, h3, h4, h5, Or.inr ⟨hp, ?_⟩⟩
            rcases h6 with h6 | ⟨-, p, h6⟩
            · exact ⟨pgt, h6⟩
            · exact ⟨p, h6⟩
          · have hw' : (w.set j { ej with
                global := GlobalTransform.from_local pgt ej.transform }).get? i = some e := by
              rw [List.get?_set_ne _ w (fun h => hij h.symm)]
              exact hw
            exact ih _ _ i e hw'
        · rw [if_neg hp]
          exact ih st w i e hw

/-- C3 (amended): in the systems.rs variant of the propagator the root rule
is applied exactly to the parentless entities — every parentless entity ends
the pass with `from_root` of its local transform and is never modified by
the stack loop — and a parented entity is only ever assigned compose-rule
values `from_local p` of its own local transform (or left untouched when no
stack entry reaches it), never the root rule.  (The scheduled main.rs
variant instead applies the root rule to every changed entity regardless of
parenthood; see the counterexample.) -/
theorem systems_propagator_root_rule_exactly_roots (fuel : ℕ) (w : PWorld) (i : ℕ)
    (e : PEnt) (hw : w.get? i = some e) :
    ∃ e', (update_global_transforms_system_systems fuel w).get? i = some e' ∧
      e'.transform = e.transform ∧ e'.hasParent = e.hasParent ∧
      (e.hasParent = false → e'.global = GlobalTransform.from_root e.transform) ∧
      (e.hasParent = true →
        e'.global = e.global ∨
          ∃ p, e'.global = GlobalTransform.from_local p e.transform) := by
  by_cases hpar : e.hasParent = true
  · have h1 : (phase1SystemsWorld w).get? i = some e := by
      rw [phase1SystemsWorld_get? w i e hw, if_pos hpar]
    obtain ⟨e', hg, ht, _, hp, _, hglob⟩ :=
      stackLoopSystems_spec fuel (phase1SystemsStack w) (phase1SystemsWorld w) i e h1
    refine ⟨e', hg, ht, hp, fun hfalse => ?_, fun _ => ?_⟩
    · rw [hpar] at hfalse
      cases hfalse
    · rcases hglob with h | ⟨-, p, h⟩
      · exact Or.inl h
      · exact Or.inr ⟨p, h⟩
  · have h1 : (phase1SystemsWorld w).get? i =
        some { e with global := GlobalTransform.from_root e.transform } := by
      rw [phase1SystemsWorld_get? w i e hw, if_neg hpar]
    obtain ⟨e', hg, ht, _, hp, _, hglob⟩ :=
      stackLoopSystems_spec fuel (phase1SystemsStack w) (phase1SystemsWorld w) i _ h1
    refine ⟨e', hg, ht, hp, fun _ => ?_, fun htrue => absurd htrue hpar⟩
    rcases hglob with h | ⟨habs, -⟩
    · exact h
    · exact absurd habs hpar

/-- Witness for the amended C3 at a concrete input: a one-entity world whose
only entity is parentless. -/
theorem systems_propagator_root_rule_witness :
    [exC3Parent].get? 0 = some exC3Parent ∧
      ∃ e', (update_global_transforms_system_systems 1 [exC3Parent]).get? 0 = some e' ∧
        e'.transform = exC3Parent.transform ∧ e'.hasParent = exC3Parent.hasParent ∧
        (exC3Parent.hasParent = false →
          e'.global = GlobalTransform.from_root exC3Parent.transform) ∧
        (exC3Parent.hasParent = true →
          e'.global = exC3Parent.global ∨
            ∃ p, e'.global = GlobalTransform.from_local p exC3Parent.transform) :=
  ⟨rfl, systems_propagator_root_rule_exactly_roots 1 [exC3Parent] 0 exC3Parent rfl⟩

/-- `Collider` component (src/components.rs): `ColliderKind::Rectangle(size)`
plus an offset anchoring the rectangle relative to the world position. -/
structure Collider where
  size : Vec2
  offset : Vec2
deriving DecidableEq, Repr

/-- An entity's collider rectangle in world space as computed by
`apply_velocity_system`: position − offset, sized `shape * world_scale`. -/
def colliderRect (c : Collider) (gt : GlobalTransform) : Rectangle :=
  ⟨gt.position.x - c.offset.x, gt.position.y - c.offset.y,
    c.size.x * gt.scale.x, c.size.y * gt.scale.y⟩

/-- An entity as seen by the collision resolver: local transform, optional
world transform, optional velocity, optional collider, `OnScreen` tag. -/
structure Ent where
  transform : Transform
  globalTransform : Option GlobalTransform
  velocity : Option Vec2
  collider : Option Collider
  onScreen : Bool
deriving DecidableEq, Repr

/-- Center-delta along X between the player rectangle and another rectangle
(stationary branch of `apply_velocity_system`). -/
def centerDX (p s : Rectangle) : ℚ := (p.x + p.width / 2) - (s.x + s.width / 2)

/-- Center-delta along Y. -/
def centerDY (p s : Rectangle) : ℚ := (p.y + p.height / 2) - (s.y + s.height / 2)

/-- Overlap along X: half the width sum minus the absolute center delta. -/
def intersectX (p s : Rectangle) : ℚ := (p.width + s.width) / 2 - |centerDX p s|

/-- Overlap along Y. -/
def intersectY (p s : Rectangle) : ℚ := (p.height + s.height) / 2 - |centerDY p s|

/-- The minimum-translation push of the stationary branch: push along the
axis of smaller overlap (ties go to Y), away from the other center (a zero
delta pushes in the negative direction, the source's `else` arm). -/
def mtvPush (p s : Rectangle) : Rectangle :=
  if intersectX p s < intersectY p s then
    if centerDX p s > 0 then { p with x := p.x + intersectX p s }
    else { p with x := p.x - intersectX p s }
  else
    if centerDY p s > 0 then { p with y := p.y + intersectY p s }
    else { p with y := p.y - intersectY p s }

/-- One static collision of the stationary branch. -/
def staticStationaryStep (p s : Rectangle) : Rectangle :=
  if p.collides s then mtvPush p s else p

/-- One mover-vs-mover collision of the stationary branch: an overlapping
mover is treated as an obstacle only when its own velocity is zero on both
axes. -/
def moverStationaryStep (p : Rectangle) (o : Rectangle × Vec2) : Rectangle :=
  if o.2.x = 0 ∧ o.2.y = 0 ∧ p.collides o.1 then mtvPush p o.1 else p

/-- X-axis clamp of the moving branch: on overlap, snap to the near edge
determined by the sign of the X velocity. -/
def clampX (v : Vec2) (p s : Rectangle) : Rectangle :=
  if p.collides s then
    if v.x > 0 then { p with x := s.x - p.width }
    else if v.x < 0 then { p with x := s.x + s.width }
    else p
  else p

/-- Y-axis clamp of the moving branch. -/
def clampY (v : Vec2) (p s : Rectangle) : Rectangle :=
  if p.collides s then
    if v.y > 0 then { p with y := s.y - p.height }
    else if v.y < 0 then { p with y := s.y + s.height }
    else p
  else p

/-- The moving branch: apply the X displacement, clamp against statics then
against the other movers; then apply the Y displacement and clamp against
statics then movers (X fully resolved before Y begins). -/
def resolveMoving (statics : List Rectangle) (others : List Rectangle) (v : Vec2)
    (r : Rectangle) : Rectangle :=
  let r1 := { r with x := r.x + v.x }
  let r2 := statics.foldl (clampX v) r1
  let r3 := others.foldl (clampX v) r2
  let r4 := { r3 with y := r3.y + v.y }
  let r5 := statics.foldl (clampY v) r4
  others.foldl (clampY v) r5

/-- The stationary branch: push out of every overlapping static, then out of
every overlapping zero-velocity mover. -/
def resolveStationary (statics : List Rectangle) (others : List (Rectangle × Vec2))
    (r : Rectangle) : Rectangle :=
  others.foldl moverStationaryStep (statics.foldl staticStationaryStep r)

/-- Per-mover resolution: the moving branch when the velocity is nonzero on
either axis, otherwise the stationary branch. -/
def resolveMover (statics : List Rectangle) (others : List (Rectangle × Vec2))
    (v : Vec2) (r : Rectangle) : Rectangle :=
  if v.x ≠ 0 ∨ v.y ≠ 0 then resolveMoving statics (others.map Prod.fst) v r
  else resolveStationary statics others r

/-- The precomputed static rectangles of main.rs's `apply_velocity_system`:
every entity with a collider and world transform, no velocity, and the
`OnScreen` tag — independent of the spatial index. -/
def staticRects (ents : List Ent) : List Rectangle :=
  ents.filterMap (fun e =>
    match e.velocity, e.collider, e.globalTransform with
    | none, some c, some gt => if e.onScreen then some (colliderRect c gt) else none
    | _, _, _ => none)

/-- Index-tagging of a list starting at a given index (the enumeration used
to key movers by entity). -/
def withIdxFrom : ℕ → List α → List (ℕ × α)
  | _, [] => []
  | i, a :: l => (i, a) :: withIdxFrom (i + 1) l

/-- Index-tagging of a list from zero. -/
def withIdx (l : List α) : List (ℕ × α) := withIdxFrom 0 l

/-- The mover list (`moving_rects`): entities with velocity, world transform
and collider, keyed by their index, with their world rectangle. -/
def moverEntries (ents : List Ent) : List (ℕ × Rectangle × Vec2) :=
  (withIdx ents).filterMap (fun p =>
    match p.2.velocity, p.2.globalTransform, p.2.collider with
    | some v, some gt, some c => some (p.1, colliderRect c gt, v)
    | _, _, _ => none)

/-- The sequential resolution loop over movers: mover `i` reads all other
movers at their current (possibly already-resolved) rectangles via the
split-at pattern, and writes its own resolved rectangle back in place. -/
def resolvePass (statics : List Rectangle) (movers : List (ℕ × Rectangle × Vec2)) :
    List (ℕ × Rectangle × Vec2) :=
  (List.range movers.length).foldl (fun ms i =>
    match ms.get? i with
    | some (j, r, v) =>
      ms.set i (j, resolveMover statics
        ((ms.take i ++ ms.drop (i + 1)).map (fun t => (t.2.1, t.2.2))) v r, v)
    | none => ms) movers

/-- main.rs `apply_velocity_system` (the scheduled variant): collider-less
movers get the raw velocity applied to their position; collider movers get
the net delta between their original and resolved rectangle; everything
else is untouched. -/
def apply_velocity_system_main (ents : List Ent) : List Ent :=
  let resolved := resolvePass (staticRects ents) (moverEntries ents)
  (withIdx ents).map (fun (p : ℕ × Ent) =>
    let i := p.1
    let e := p.2
    match e.velocity, e.globalTransform with
    | some v, some gt =>
      match e.collider with
      | none =>
        { e with transform := { e.transform with position := e.transform.position + v } }
      | some c =>
        match resolved.find? (fun t => t.1 == i) with
        | some t =>
          { e with transform := { e.transform with position :=
              e.transform.position +
                ⟨t.2.1.x - (colliderRect c gt).x, t.2.1.y - (colliderRect c gt).y⟩ } }
        | none => e
    | _, _ => e)

/-- The 32×32 mover of the spec's end-to-end scenario: world position
(50,50), velocity (10,0), zero collider offset. -/
def exMover : Ent :=
  { transform := ⟨⟨50, 50⟩, 0, ⟨1, 1⟩⟩, globalTransform := some ⟨⟨50, 50⟩, 0, ⟨1, 1⟩⟩,
    velocity := some ⟨10, 0⟩, collider := some ⟨⟨32, 32⟩, ⟨0, 0⟩⟩, onScreen := true }

/-- The static 32×32 collider of the scenario at (70,50). -/
def exWall : Ent :=
  { transform := ⟨⟨70, 50⟩, 0, ⟨1, 1⟩⟩, globalTransform := some ⟨⟨70, 50⟩, 0, ⟨1, 1⟩⟩,
    velocity := none, collider := some ⟨⟨32, 32⟩, ⟨0, 0⟩⟩, onScreen := true }

/-- C2: in the spec's end-to-end scenario — a 32×32 mover at (50,50) with
velocity (10,0) against a static 32×32 collider at (70,50) — one resolution
pass clamps the mover's x to the static left edge minus the mover width:
x = 70 − 32 = 38, not 60; the wall does not move. -/
theorem mover_clamped_flush_to_wall :
    (apply_velocity_system_main [exMover, exWall]).map (fun e => e.transform.position) =
        [⟨38, 50⟩, ⟨70, 50⟩] ∧
      (38 : ℚ) = 70 - 32 ∧ (38 : ℚ) ≠ 60 := by
  refine ⟨?_, by norm_num, by norm_num⟩
  norm_num [apply_velocity_system_main, resolvePass, moverEntries, staticRects,
    exMover, exWall, colliderRect, resolveMover, resolveMoving, clampX, clampY,
    Rectangle.collides, withIdx, withIdxFrom, List.filterMap_cons, List.range_succ,
    List.find?, Vec2.add_def]

/-- The per-mover static-candidate set of systems.rs's
`apply_velocity_system`: the spatial-index query of the mover's current
rectangle, filtered to the entities the `static_colliders` query resolves
(`statics` models `static_colliders.get`, i.e. collider + world transform
and no `Velocity`, yielding the world rectangle). -/
def checkedStatics (sh : SpatialHash) (statics : Entity → Option Rectangle)
    (moverRect : Rectangle) : Finset Entity :=
  (sh.query moverRect).filter (fun e => (statics e).isSome)

/-- C1 (amended): in the systems.rs variant the static colliders checked in
the narrow phase for a mover are exactly the static-collider entities among
the spatial-index query of the mover's current rectangle — in particular a
subset of the query result.  (The scheduled main.rs variant has no such
broad phase; see the counterexample.) -/
theorem systems_narrow_phase_exactly_query (sh : SpatialHash)
    (statics : Entity → Option Rectangle) (r : Rectangle) :
    (∀ e, e ∈ checkedStatics sh statics r ↔ e ∈ sh.query r ∧ (statics e).isSome) ∧
      checkedStatics sh statics r ⊆ sh.query r := by
  refine ⟨fun e => ?_, fun e he => ?_⟩
  · simp [checkedStatics, Finset.mem_filter]
  · exact (Finset.mem_filter.mp he).1

/-- A 10×10 mover at the origin with velocity (5,0). -/
def exC1Mover : Ent :=
  { transform := ⟨⟨0, 0⟩, 0, ⟨1, 1⟩⟩, globalTransform := some ⟨⟨0, 0⟩, 0, ⟨1, 1⟩⟩,
    velocity := some ⟨5, 0⟩, collider := some ⟨⟨10, 10⟩, ⟨0, 0⟩⟩, onScreen := true }

/-- A static on-screen 10×10 collider at (8,0) that is absent from the
spatial index. -/
def exC1Wall : Ent :=
  { transform := ⟨⟨8, 0⟩, 0, ⟨1, 1⟩⟩, globalTransform := some ⟨⟨8, 0⟩, 0, ⟨1, 1⟩⟩,
    velocity := none, collider := some ⟨⟨10, 10⟩, ⟨0, 0⟩⟩, onScreen := true }

/-- Counterexample to C1 as stated: the scheduled (main.rs) resolver
precomputes and checks every on-screen static collider without consulting
the spatial index.  Here the index is empty — the query over the mover's
rectangle returns no candidates, so per the claim no static would be
checked and the mover's x would end at 0 + 5 — yet the resolver clamps the
mover against the unindexed static to x = 8 − 10 = −2. -/
theorem main_resolver_checks_static_outside_query :
    (SpatialHash.new 96).query ⟨0, 0, 10, 10⟩ = ∅ ∧
      (apply_velocity_system_main [exC1Mover, exC1Wall]).map
          (fun e => e.transform.position.x) = [-2, 8] ∧
      (-2 : ℚ) ≠ 0 + 5 := by
  refine ⟨?_, ?_, by norm_num⟩
  · norm_num [SpatialHash.query, SpatialHash.cell_coords_rect, SpatialHash.cell_coords,
      SpatialHash.new, intRange, getCell]
  · norm_num [apply_velocity_system_main, resolvePass, moverEntries, staticRects,
      exC1Mover, exC1Wall, colliderRect, resolveMover, resolveMoving, clampX, clampY,
      Rectangle.collides, withIdx, withIdxFrom, List.filterMap_cons, List.range_succ,
      List.find?, Vec2.add_def]

theorem foldl_moverStationaryStep_filter (p : Rectangle)
    (others : List (Rectangle × Vec2)) :
    others.foldl moverStationaryStep p =
      (others.filter (fun o => decide (o.2.x = 0) && decide (o.2.y = 0))).foldl
        moverStationaryStep p := by
  induction others generalizing p with
  | nil => rfl
  | cons o os ih =>
    by_cases h : o.2.x = 0 ∧ o.2.y = 0
    · simp only [List.filter_cons, Bool.and_eq_true, decide_eq_true_eq, h, and_self,
        if_true, List.foldl_cons]
      exact ih _
    · have hstep : moverStationaryStep p o = p := by
        unfold moverStationaryStep
        rw [if_neg]
        rintro ⟨h1, h2, -⟩
        exact h ⟨h1, h2⟩
      simp only [List.filter_cons, Bool.and_eq_true, decide_eq_true_eq, h, if_false,
        List.foldl_cons, hstep]
      exact ih _

/-- C5: in the stationary branch, an overlapping rectangle pushes the entity
along exactly the axis of smaller overlap (ties to Y), by the overlap
amount, positive when the entity's center is on the positive side of the
other's center and negative otherwise; a non-overlapping rectangle changes
nothing; an overlapping mover acts as an obstacle exactly as a static does
when its velocity is zero on both axes; and dropping all nonzero-velocity
movers from the pass leaves the result unchanged — they never cause any
position change. -/
theorem stationary_mtv_push_spec (p s : Rectangle) (others : List (Rectangle × Vec2)) :
    (p.collides s = true → intersectX p s < intersectY p s →
      (staticStationaryStep p s).y = p.y ∧
        (staticStationaryStep p s).x =
          (if 0 < centerDX p s then p.x + intersectX p s else p.x - intersectX p s) ∧
        (staticStationaryStep p s).width = p.width ∧
        (staticStationaryStep p s).height = p.height) ∧
    (p.collides s = true → ¬intersectX p s < intersectY p s →
      (staticStationaryStep p s).x = p.x ∧
        (staticStationaryStep p s).y =
          (if 0 < centerDY p s then p.y + intersectY p s else p.y - intersectY p s) ∧
        (staticStationaryStep p s).width = p.width ∧
        (staticStationaryStep p s).height = p.height) ∧
    (p.collides s = false → staticStationaryStep p s = p) ∧
    (∀ r : Rectangle, moverStationaryStep p (r, ⟨0, 0⟩) = staticStationaryStep p r) ∧
    (others.foldl moverStationaryStep p =
      (others.filter (fun o => decide (o.2.x = 0) && decide (o.2.y = 0))).foldl
        moverStationaryStep p) := by
  refine ⟨fun hcol hlt => ?_, fun hcol hge => ?_, fun hcol => ?_, fun r => ?_,
    foldl_moverStationaryStep_filter p others⟩
  · unfold staticStationaryStep mtvPush
    rw [if_pos hcol, if_pos hlt]
    by_cases hdx : centerDX p s > 0
    · rw [if_pos hdx, if_pos hdx]
      exact ⟨rfl, rfl, rfl, rfl⟩
    · rw [if_neg hdx, if_neg hdx]
      exact ⟨rfl, rfl, rfl, rfl⟩
  · unfold staticStationaryStep mtvPush
    rw [if_pos hcol, if_neg hge]
    by_cases hdy : centerDY p s > 0
    · rw [if_pos hdy, if_pos hdy]
      exact ⟨rfl, rfl, rfl, rfl⟩
    · rw [if_neg hdy, if_neg hdy]
      exact ⟨rfl, rfl, rfl, rfl⟩
  · unfold staticStationaryStep
    rw [hcol]
    rfl
  · unfold moverStationaryStep staticStationaryStep
    by_cases hcol : p.collides r = true
    · rw [if_pos ⟨rfl, rfl, hcol⟩, if_pos hcol]
    · rw [if_neg (fun h => hcol h.2.2), if_neg hcol]

/-- Witness for C5 at concrete rectangles: a 4×10 entity overlapping a 4×10
static to its right (overlap 1 along X, 10 along Y) is pushed left by 1;
and a one-element mover list with nonzero velocity filters to nothing. -/
theorem stationary_mtv_push_spec_witness :
    (Rectangle.collides ⟨0, 0, 4, 10⟩ ⟨3, 0, 4, 10⟩ = true) ∧
      intersectX ⟨0, 0, 4, 10⟩ ⟨3, 0, 4, 10⟩ < intersectY ⟨0, 0, 4, 10⟩ ⟨3, 0, 4, 10⟩ ∧
      ((staticStationaryStep ⟨0, 0, 4, 10⟩ ⟨3, 0, 4, 10⟩).y = 0 ∧
        (staticStationaryStep ⟨0, 0, 4, 10⟩ ⟨3, 0, 4, 10⟩).x =
          (if 0 < centerDX ⟨0, 0, 4, 10⟩ ⟨3, 0, 4, 10⟩
            then (0 : ℚ) + intersectX ⟨0, 0, 4, 10⟩ ⟨3, 0, 4, 10⟩
            else (0 : ℚ) - intersectX ⟨0, 0, 4, 10⟩ ⟨3, 0, 4, 10⟩) ∧
        (staticStationaryStep ⟨0, 0, 4, 10⟩ ⟨3, 0, 4, 10⟩).width = 4 ∧
        (staticStationaryStep ⟨0, 0, 4, 10⟩ ⟨3, 0, 4, 10⟩).height = 10) ∧
      [((⟨100, 100, 4, 4⟩ : Rectangle), (⟨1, 0⟩ : Vec2))].foldl moverStationaryStep
          ⟨0, 0, 4, 10⟩ =
        ([((⟨100, 100, 4, 4⟩ : Rectangle), (⟨1, 0⟩ : Vec2))].filter
            (fun o => decide (o.2.x = 0) && decide (o.2.y = 0))).foldl
          moverStationaryStep ⟨0, 0, 4, 10⟩ := by
  have hcol : Rectangle.collides ⟨0, 0, 4, 10⟩ ⟨3, 0, 4, 10⟩ = true := by
    norm_num [Rectangle.collides]
  have hlt : intersectX ⟨0, 0, 4, 10⟩ ⟨3, 0, 4, 10⟩ <
      intersectY ⟨0, 0, 4, 10⟩ ⟨3, 0, 4, 10⟩ := by
    norm_num [intersectX, intersectY, centerDX, centerDY]
  exact ⟨hcol, hlt,
    (stationary_mtv_push_spec ⟨0, 0, 4, 10⟩ ⟨3, 0, 4, 10⟩ []).1 hcol hlt,
    (stationary_mtv_push_spec ⟨0, 0, 4, 10⟩ ⟨3, 0, 4, 10⟩
      [((⟨100, 100, 4, 4⟩ : Rectangle), (⟨1, 0⟩ : Vec2))]).2.2.2.2⟩

/-- The active camera state read by `update_on_screen_system`. -/
structure Camera where
  target : Vec2
  zoom : ℚ
deriving DecidableEq, Repr

/-- The world-space camera rectangle of `update_on_screen_system`:
`target ± screen_size / zoom` on each axis, with the source's
`extra_offset = 0.0` applied literally. -/
def cameraViewRect (cam : Camera) (screen : Vec2) : Rectangle :=
  let extra_offset : ℚ := 0
  let min_x := cam.target.x - screen.x / cam.zoom
  let min_y := cam.target.y - screen.y / cam.zoom
  let max_x := cam.target.x + screen.x / cam.zoom
  let max_y := cam.target.y + screen.y / cam.zoom
  ⟨min_x - extra_offset, min_y - extra_offset,
    max_x - min_x + extra_offset * 2, max_y - min_y + extra_offset * 2⟩

/-- `update_on_screen_system` with its deferred commands applied: insert the
`OnScreen` tag for every entity in the query result, then remove it from
every previously tagged entity absent from the result. -/
def update_on_screen_system (sh : SpatialHash) (cam : Camera) (screen : Vec2)
    (marked : Finset Entity) : Finset Entity :=
  let res := sh.query (cameraViewRect cam screen)
  (marked ∪ res) \ (marked.filter (fun e => e ∉ res))

/-- C8: after one run of the visibility culler (deferred commands applied),
the tagged set is exactly the spatial-index query result over the camera
rectangle: every queried entity is tagged and every previously tagged
entity absent from the query is untagged. -/
theorem culler_marks_exactly_query (sh : SpatialHash) (cam : Camera) (screen : Vec2)
    (marked : Finset Entity) (x : Entity) :
    x ∈ update_on_screen_system sh cam screen marked ↔
      x ∈ sh.query (cameraViewRect cam screen) := by
  simp only [update_on_screen_system, Finset.mem_sdiff, Finset.mem_union,
    Finset.mem_filter]
  tauto

theorem withIdxFrom_get? (l : List α) (n i : ℕ) :
    (withIdxFrom n l).get? i = (l.get? i).map (fun a => (n + i, a)) := by
  induction l generalizing n i with
  | nil => simp [withIdxFrom]
  | cons a l ih =>
    cases i with
    | zero => simp [withIdxFrom]
    | succ i =>
      simp only [withIdxFrom, List.get?_cons_succ, ih]
      congr 1
      funext a
      congr 1
      omega

theorem withIdx_get? (l : List α) (i : ℕ) :
    (withIdx l).get? i = (l.get? i).map (fun a => (i, a)) := by
  simpa [withIdx] using withIdxFrom_get? l 0 i

theorem apply_velocity_get? (ents : List Ent) (i : ℕ) (e : Ent)
    (hw : ents.get? i = some e) :
    (apply_velocity_system_main ents).get? i = some (
      match e.velocity, e.globalTransform with
      | some v, some gt =>
        match e.collider with
        | none =>
          { e with transform := { e.transform with position := e.transform.position + v } }
        | some c =>
          match (resolvePass (staticRects ents) (moverEntries ents)).find?
              (fun t => t.1 == i) with
          | some t =>
            { e with transform := { e.transform with position :=
                e.transform.position +
                  ⟨t.2.1.x - (colliderRect c gt).x, t.2.1.y - (colliderRect c gt).y⟩ } }
          | none => e
      | _, _ => e) := by
  unfold apply_velocity_system_main
  rw [List.get?_eq_getElem?, List.getElem?_map, ← List.get?_eq_getElem?, withIdx_get?, hw]
  rfl

/-- C9: the resolution pass mutates only the position field of each entity's
local transform — rotation, scale, world transform and all other components
are preserved for every entity; an entity without a velocity (or without a
world transform) is left entirely unchanged; a collider-less mover moves by
its raw velocity; and a mover with a collider moves by the net delta between
its resolved and original rectangle. -/
theorem resolver_mutates_only_position (ents : List Ent) (i : ℕ) (e : Ent)
    (hw : ents.get? i = some e) :
    ∃ e', (apply_velocity_system_main ents).get? i = some e' ∧
      e'.transform.rotation = e.transform.rotation ∧
      e'.transform.scale = e.transform.scale ∧
      e'.globalTransform = e.globalTransform ∧
      e'.velocity = e.velocity ∧
      e'.collider = e.collider ∧
      e'.onScreen = e.onScreen ∧
      (e.velocity = none → e' = e) ∧
      (e.globalTransform = none → e' = e) ∧
      (∀ v gt, e.velocity = some v → e.globalTransform = some gt → e.collider = none →
        e'.transform.position = e.transform.position + v) ∧
      (∀ v gt c t, e.velocity = some v → e.globalTransform = some gt →
        e.collider = some c →
        (resolvePass (staticRects ents) (moverEntries ents)).find? (fun q => q.1 == i) =
          some t →
        e'.transform.position = e.transform.position +
          ⟨t.2.1.x - (colliderRect c gt).x, t.2.1.y - (colliderRect c gt).y⟩) := by
  obtain ⟨tr, gto, vo, co, scr⟩ := e
  have hres := apply_velocity_get? ents i _ hw
  cases vo with
  | none =>
    exact ⟨_, hres, rfl, rfl, rfl, rfl, rfl, rfl, fun _ => rfl,
      fun _ => rfl, fun v gt hv2 _ _ => Option.noConfusion hv2,
      fun v gt c t hv2 _ _ _ => Option.noConfusion hv2⟩
  | some v =>
    cases gto with
    | none =>
      exact ⟨_, hres, rfl, rfl, rfl, rfl, rfl, rfl, fun hn => Option.noConfusion hn,
        fun _ => rfl, fun v' gt' _ hgt2 _ => Option.noConfusion hgt2,
        fun v' gt' c t _ hgt2 _ _ => Option.noConfusion hgt2⟩
    | some gt =>
      cases co with
      | none =>
        refine ⟨_, hres, rfl, rfl, rfl, rfl, rfl, rfl, fun hn => Option.noConfusion hn,
          fun hn => Option.noConfusion hn, fun v' gt' hv2 hgt2 _ => ?_,
          fun v' gt' c t _ _ hc2 _ => Option.noConfusion hc2⟩
        cases hv2
        rfl
      | some c =>
        cases hfind : (resolvePass (staticRects ents) (moverEntries ents)).find?
            (fun q => q.1 == i) with
        | none =>
          rw [hfind] at hres
          exact ⟨_, hres, rfl, rfl, rfl, rfl, rfl, rfl, fun hn => Option.noConfusion hn,
            fun hn => Option.noConfusion hn,
            fun v' gt' _ _ hc2 => Option.noConfusion hc2,
            fun v' gt' c' t' _ _ _ hfind2 => Option.noConfusion hfind2⟩
        | some t =>
          rw [hfind] at hres
          refine ⟨_, hres, rfl, rfl, rfl, rfl, rfl, rfl, fun hn => Option.noConfusion hn,
            fun hn => Option.noConfusion hn,
            fun v' gt' _ _ hc2 => Option.noConfusion hc2,
            fun v' gt' c' t' hv2 hgt2 hc2 hfind2 => ?_⟩
          cases hv2
          cases hgt2
          cases hc2
          cases hfind2
          rfl


/-- Witness for C9 at a concrete input: a one-entity world holding only the
static wall (no velocity), which the resolver leaves unchanged. -/
theorem resolver_mutates_only_position_witness :
    [exWall].get? 0 = some exWall ∧
      ∃ e', (apply_velocity_system_main [exWall]).get? 0 = some e' ∧
        e'.transform.rotation = exWall.transform.rotation ∧
        e'.transform.scale = exWall.transform.scale ∧
        e'.globalTransform = exWall.globalTransform ∧
        e'.velocity = exWall.velocity ∧
        e'.collider = exWall.collider ∧
        e'.onScreen = exWall.onScreen ∧
        (exWall.velocity = none → e' = exWall) ∧
        (exWall.globalTransform = none → e' = exWall) ∧
        (∀ v gt, exWall.velocity = some v → exWall.globalTransform = some gt →
          exWall.collider = none →
          e'.transform.position = exWall.transform.position + v) ∧
        (∀ v gt c t, exWall.velocity = some v → exWall.globalTransform = some gt →
          exWall.collider = some c →
          (resolvePass (staticRects [exWall]) (moverEntries [exWall])).find?
            (fun q => q.1 == 0) = some t →
          e'.transform.position = exWall.transform.position +
            ⟨t.2.1.x - (colliderRect c gt).x, t.2.1.y - (colliderRect c gt).y⟩) :=
  ⟨rfl, resolver_mutates_only_position [exWall] 0 exWall rfl⟩

end Ecs
